import Mathlib

/-!
Verification of the `rgo` compiler front end (lexer, token model, parser entry)
against its natural-language specification.

The development shallowly embeds `src/lexer/mod.rs` (and, where files of the
repository are absent from the provided sources, models the missing parts from
the specification, marked `Modelled from the spec:` in their doc comments).

Conventions of the embedding:
* Rust `&str` is modelled as `List Char` (named `Src`); byte offsets are
  recomputed from `Char.utf8Size`, matching Rust's UTF-8 byte indexing.
* Rust panics (the `panic!` at the end of `next`, and the slicing/`unwrap`
  panics inside `char_at`) are modelled as `Except.error` values of type
  `LexAbort`; ordinary returns are `Except.ok`.
* The three scanning `loop`s in `next` and the token-collection loop of
  `tokenize` are modelled fuel-indexed (structural recursion on a `Nat`),
  with the fuel bound `nu` shown sufficient (`scanWhile_stable`,
  `lexRunF_stable`); this renders the spec's "loops are all bounded by input
  length" and keeps every definition executable by `rfl`/`decide`.
-/

set_option maxHeartbeats 1600000

namespace Rgo

/-- Source text, modelling Rust `&str` as its sequence of Unicode scalar
values. Byte offsets into the text are recovered via `Char.utf8Size`. -/
abbrev Src := List Char

/-- Total UTF-8 byte length of a source text, modelling Rust `str::len`. -/
def byteLen : Src → Nat
  | [] => 0
  | c :: t => c.utf8Size + byteLen t

/-- Models the free function `char_at(s, byte)` of `src/lexer/mod.rs`:
`s[byte..].chars().next().unwrap()`. Returns `none` exactly where Rust
panics: when `byte` is out of range, equals the length (empty slice, so
`unwrap` panics), or falls strictly inside a multi-byte character
(slicing panics on a non-character boundary). -/
def char_at : Src → Nat → Option Char
  | [], _ => none
  | c :: t, b =>
    if b = 0 then some c
    else if b < c.utf8Size then none
    else char_at t (b - c.utf8Size)

/-- Models Rust byte slicing `&s[a..]` restricted to the call sites of the
lexer, where `a` is always a character boundary (Rust would panic otherwise;
on a non-boundary this total model drops the straddled character). -/
def dropBytes : Src → Nat → Src
  | [], _ => []
  | c :: t, b => if b = 0 then c :: t else dropBytes t (b - c.utf8Size)

/-- Prefix of a source text spanning `b` bytes; companion of `dropBytes`.
At the lexer's call sites `b` is always a sum of whole-character sizes. -/
def takeBytes : Src → Nat → Src
  | [], _ => []
  | c :: t, b => if c.utf8Size ≤ b then c :: takeBytes t (b - c.utf8Size) else []

/-- Models Rust byte-range slicing `&s[a..b]` as used by `next` for
identifier and string-literal text (both endpoints are character
boundaries at every call site). -/
def byteSlice (s : Src) (a b : Nat) : Src :=
  takeBytes (dropBytes s a) (b - a)

/-- Models Rust `char::is_alphabetic` (the Unicode `Alphabetic` property).
The table is exact for every code point below U+0250 (ASCII, Latin-1
supplement, Latin Extended-A and Extended-B); code points at or above
U+0250 are conservatively classified as non-alphabetic. -/
def rust_is_alphabetic (c : Char) : Bool :=
  c.isAlpha
    || c.toNat = 0xAA || c.toNat = 0xB5 || c.toNat = 0xBA
    || (0xC0 ≤ c.toNat && c.toNat ≤ 0x24F && c.toNat ≠ 0xD7 && c.toNat ≠ 0xF7)

/-- Models Rust `char::is_numeric` (Unicode `Nd`/`Nl`/`No`). Exact for every
code point below U+0250: the ASCII digits plus the Latin-1 superscripts and
vulgar fractions. -/
def rust_is_numeric (c : Char) : Bool :=
  c.isDigit
    || c.toNat = 0xB2 || c.toNat = 0xB3 || c.toNat = 0xB9
    || (0xBC ≤ c.toNat && c.toNat ≤ 0xBE)

/-- Models Rust `char::is_whitespace` (Unicode `White_Space`). Exact for
every code point below U+0250: U+0009..U+000D, space, U+0085 and U+00A0. -/
def rust_is_whitespace (c : Char) : Bool :=
  (0x09 ≤ c.toNat && c.toNat ≤ 0x0D) || c = ' '
    || c.toNat = 0x85 || c.toNat = 0xA0

/-- Models `can_start_identifier` of `src/lexer/mod.rs`. -/
def can_start_identifier (c : Char) : Bool :=
  rust_is_alphabetic c

/-- Models `can_continue_identifier` of `src/lexer/mod.rs`. -/
def can_continue_identifier (c : Char) : Bool :=
  rust_is_alphabetic c || rust_is_numeric c

/-- Modelled from the spec: the delimiter classification of the token model
(`src/lexer/token.rs` is not among the provided sources; the constructors
are pinned by their uses in `src/lexer/mod.rs`). -/
inductive DelimToken
  | Paren
  | Brace
  | Bracket
deriving DecidableEq, Repr

/-- Modelled from the spec: the 25 reserved Go words of the keyword table
(`src/lexer/token.rs` is absent; the constructors are pinned by the keyword
match in `next`). The Go keyword `type` is rendered `TypeKw` because `Type`
is reserved in Lean. -/
inductive Keyword
  | Break
  | Case
  | Chan
  | Const
  | Continue
  | Default
  | Defer
  | Else
  | Fallthrough
  | For
  | Func
  | Go
  | Goto
  | If
  | Import
  | Interface
  | Map
  | Package
  | Range
  | Return
  | Select
  | Struct
  | Switch
  | TypeKw
  | Var
deriving DecidableEq, Repr

/-- Modelled from the spec: literal tokens. Only string literals are
produced by the lexer in `src/lexer/mod.rs`; the raw interior text is
stored, as an owned copy. -/
inductive Literal
  | Str (s : Src)
deriving DecidableEq, Repr

/-- Modelled from the spec: the token model (`src/lexer/token.rs` is absent
from the provided sources). Every constructor below is pinned by a
construction site in `next` of `src/lexer/mod.rs`; a token consists of its
kind alone — the doctest of `next` compares `Token::CloseDelim(Paren)`
by equality, so no position is attached. -/
inductive Token
  | OpenDelim (d : DelimToken)
  | CloseDelim (d : DelimToken)
  | Comma
  | Dot
  | Plus
  | Increment
  | PlusEquals
  | Minus
  | Decrement
  | MinusEquals
  | Pipe
  | PipePipe
  | PipeEquals
  | Keyword (k : Keyword)
  | Ident (s : Src)
  | Whitespace
  | Literal (l : Literal)
deriving DecidableEq, Repr

/-- Models the two panic sites of the lexer: the slicing/`unwrap` panic
inside `char_at` (reached through `bump` when the byte-wise position lands
inside a multi-byte character), and the `panic!("unexpected start of
token: '{}'", c)` at the end of `next`, whose message carries the
offending character (and no position). -/
inductive LexAbort
  | charBoundary
  | unexpectedChar (c : Char)
deriving DecidableEq, Repr

/-- Models `struct Lexer` of `src/lexer/mod.rs`: a byte offset from the
start, the source string, and the last character that was read. -/
structure Lexer where
  pos : Nat
  src : Src
  current_char : Option Char
deriving DecidableEq, Repr

/-- Models `Lexer::new`: position `0` and the first character of the
source (the diagnostic `println!` of the constructor is ignored). -/
def Lexer.new (s : Src) : Lexer :=
  { pos := 0, src := s, current_char := s.head? }

/-- Models `bump`: advance the byte position by one — the unused binding
`let old = self.current_char` of the source notwithstanding, the position
moves by exactly one byte, not by the width of the eaten character — and
re-read the current character, propagating the `char_at` panic. -/
def bump (l : Lexer) : Except LexAbort Lexer :=
  let pos := l.pos + 1
  if pos < byteLen l.src then
    match char_at l.src pos with
    | some ch => .ok { l with pos := pos, current_char := some ch }
    | none => .error .charBoundary
  else
    .ok { l with pos := pos, current_char := none }

/-- Fuel bound for every scanning loop: twice the remaining byte budget plus
one when a character is in hand. Each successful `bump` strictly decreases
it, so it bounds the iteration count of every loop by the input length. -/
def nu (l : Lexer) : Nat :=
  2 * (byteLen l.src + 2 - l.pos) + (if l.current_char.isSome then 1 else 0)

/-- Models the three identical `loop`s of `next` (identifier run, whitespace
run, string-literal interior), which differ only in their continuation
condition `p`: while the current character exists and satisfies `p`, `bump`;
fuel-indexed, with `nu` proven a sufficient bound (`scanWhile_stable`). -/
def scanWhile (p : Char → Bool) : Nat → Lexer → Except LexAbort Lexer
  | 0, l => .ok l
  | f + 1, l =>
    match l.current_char with
    | some c =>
      if p c then
        match bump l with
        | .error e => .error e
        | .ok l' => scanWhile p f l'
      else .ok l
    | none => .ok l

/-- Models the keyword table of `next`: the scanned run is looked up against
the 25 reserved words, defaulting to `Ident`. -/
def keywordLookup (ident : Src) : Token :=
  if ident = "break".toList then Token.Keyword Keyword.Break
  else if ident = "case".toList then Token.Keyword Keyword.Case
  else if ident = "chan".toList then Token.Keyword Keyword.Chan
  else if ident = "const".toList then Token.Keyword Keyword.Const
  else if ident = "continue".toList then Token.Keyword Keyword.Continue
  else if ident = "default".toList then Token.Keyword Keyword.Default
  else if ident = "defer".toList then Token.Keyword Keyword.Defer
  else if ident = "else".toList then Token.Keyword Keyword.Else
  else if ident = "fallthrough".toList then Token.Keyword Keyword.Fallthrough
  else if ident = "for".toList then Token.Keyword Keyword.For
  else if ident = "func".toList then Token.Keyword Keyword.Func
  else if ident = "go".toList then Token.Keyword Keyword.Go
  else if ident = "goto".toList then Token.Keyword Keyword.Goto
  else if ident = "if".toList then Token.Keyword Keyword.If
  else if ident = "import".toList then Token.Keyword Keyword.Import
  else if ident = "interface".toList then Token.Keyword Keyword.Interface
  else if ident = "map".toList then Token.Keyword Keyword.Map
  else if ident = "package".toList then Token.Keyword Keyword.Package
  else if ident = "range".toList then Token.Keyword Keyword.Range
  else if ident = "return".toList then Token.Keyword Keyword.Return
  else if ident = "select".toList then Token.Keyword Keyword.Select
  else if ident = "struct".toList then Token.Keyword Keyword.Struct
  else if ident = "switch".toList then Token.Keyword Keyword.Switch
  else if ident = "type".toList then Token.Keyword Keyword.TypeKw
  else if ident = "var".toList then Token.Keyword Keyword.Var
  else Token.Ident ident

/-- Models the single-character arms of `next` (delimiters, comma, dot):
`bump` once, emit the given token. -/
def emitAfterBump (t : Token) (l : Lexer) : Except LexAbort (Option Token × Lexer) :=
  match bump l with
  | .error e => .error e
  | .ok l1 => .ok (some t, l1)

/-- Models the three structurally identical operator arms of `next`
(`+`, `-`, `|`): `bump`, then one character of lookahead decides between
the doubled form, the assignment form, and the bare operator. -/
def emitOp (d : Char) (dbl eqt short : Token) (l : Lexer) :
    Except LexAbort (Option Token × Lexer) :=
  match bump l with
  | .error e => .error e
  | .ok l1 =>
    if l1.current_char = some d then emitAfterBump dbl l1
    else if l1.current_char = some '=' then emitAfterBump eqt l1
    else .ok (some short, l1)

/-- Models the identifier arm of `next`: remember `start`, scan the
alphanumeric run, slice `src[start..pos]` and look it up in the keyword
table. -/
def scanIdent (l : Lexer) : Except LexAbort (Option Token × Lexer) :=
  match scanWhile can_continue_identifier (nu l) l with
  | .error e => .error e
  | .ok l1 => .ok (some (keywordLookup (byteSlice l1.src l.pos l1.pos)), l1)

/-- Models the whitespace arm of `next`: scan the maximal whitespace run
and emit a single `Whitespace` token. -/
def scanWhitespace (l : Lexer) : Except LexAbort (Option Token × Lexer) :=
  match scanWhile rust_is_whitespace (nu l) l with
  | .error e => .error e
  | .ok l1 => .ok (some Token.Whitespace, l1)

/-- Models the string-literal arm of `next`: skip the opening quote,
remember `start`, consume characters until a quote or end of input, slice
the interior, then `bump` once more to skip the closing quote (the skip
happens even at end of input) and emit `Literal(Str(...))` — no error is
produced for an unterminated literal. -/
def scanStr (l : Lexer) : Except LexAbort (Option Token × Lexer) :=
  match bump l with
  | .error e => .error e
  | .ok l1 =>
    match scanWhile (fun ch => ch ≠ '"') (nu l1) l1 with
    | .error e => .error e
    | .ok l2 =>
      match bump l2 with
      | .error e => .error e
      | .ok l3 =>
        .ok (some (Token.Literal (Literal.Str (byteSlice l2.src l1.pos l2.pos))), l3)

/-- Models `Iterator::next` for `Lexer` (`src/lexer/mod.rs`, lines 83-264):
returns `(none, l)` at end of input (the early `return None` leaves the
state untouched), otherwise one token and the advanced state; `Except.error`
models the two panic sites. The arms appear in source order, factored
through the step functions above. -/
def nextTok (l : Lexer) : Except LexAbort (Option Token × Lexer) :=
  match l.current_char with
  | none => .ok (none, l)
  | some c =>
    if c = '(' then emitAfterBump (Token.OpenDelim DelimToken.Paren) l
    else if c = ')' then emitAfterBump (Token.CloseDelim DelimToken.Paren) l
    else if c = '\x7b' then emitAfterBump (Token.OpenDelim DelimToken.Brace) l
    else if c = '\x7d' then emitAfterBump (Token.CloseDelim DelimToken.Brace) l
    else if c = '[' then emitAfterBump (Token.OpenDelim DelimToken.Bracket) l
    else if c = ']' then emitAfterBump (Token.CloseDelim DelimToken.Bracket) l
    else if c = ',' then emitAfterBump Token.Comma l
    else if c = '.' then emitAfterBump Token.Dot l
    else if c = '+' then emitOp '+' Token.Increment Token.PlusEquals Token.Plus l
    else if c = '-' then emitOp '-' Token.Decrement Token.MinusEquals Token.Minus l
    else if c = '|' then emitOp '|' Token.PipePipe Token.PipeEquals Token.Pipe l
    else if can_start_identifier c then scanIdent l
    else if rust_is_whitespace c then scanWhitespace l
    else if c = '"' then scanStr l
    else .error (.unexpectedChar c)

/-- Models the token-collection loop of `tokenize` (`Lexer::collect`):
repeatedly call `next` until it yields `None`, propagating panics;
fuel-indexed, with `nu` proven a sufficient bound (`lexRunF_stable`). -/
def lexRunF : Nat → Lexer → Except LexAbort (List Token)
  | 0, _ => .ok []
  | f + 1, l =>
    match nextTok l with
    | .error e => .error e
    | .ok (none, _) => .ok []
    | .ok (some t, l') =>
      match lexRunF f l' with
      | .error e => .error e
      | .ok ts => .ok (t :: ts)

/-- Models the free function `tokenize` of `src/lexer/mod.rs`: collect all
tokens of a fresh lexer. -/
def tokenize (s : Src) : Except LexAbort (List Token) :=
  lexRunF (nu (Lexer.new s)) (Lexer.new s)

/-- Observation harness for the position question: the same run as
`tokenize`, additionally recording the byte offset at which the lexer
stood when each token was begun. -/
def lexRunPosF : Nat → Lexer → Except LexAbort (List (Nat × Token))
  | 0, _ => .ok []
  | f + 1, l =>
    match nextTok l with
    | .error e => .error e
    | .ok (none, _) => .ok []
    | .ok (some t, l') =>
      match lexRunPosF f l' with
      | .error e => .error e
      | .ok ts => .ok ((l.pos, t) :: ts)

/-- Observation harness: `tokenize` with the starting byte offset of each
emitted token. -/
def tokenizeWithPos (s : Src) : Except LexAbort (List (Nat × Token)) :=
  lexRunPosF (nu (Lexer.new s)) (Lexer.new s)

/-! AST data model, embedded from `src/ast/mod.rs`. Rust `String` fields are
modelled as `Src`; the unit placeholder structs of the source are unit
inductives here. The expression tree is not needed by any claim and is
omitted. -/

/-- Models `ImportKind` of `src/ast/mod.rs`. -/
inductive ImportKind
  | Normal
  | Alias (name : Src)
  | Glob
deriving DecidableEq, Repr

/-- Models `ImportSpec` of `src/ast/mod.rs`. -/
structure ImportSpec where
  kind : ImportKind
  path : Src
deriving DecidableEq, Repr

/-- Models `ImportDecl` of `src/ast/mod.rs`. -/
structure ImportDecl where
  specs : List ImportSpec
deriving DecidableEq, Repr

/-- Models the unit placeholder `struct ConstDecl;` of `src/ast/mod.rs`. -/
inductive ConstDecl
  | mk
deriving DecidableEq, Repr

/-- Models the unit placeholder `struct TypeDecl;` of `src/ast/mod.rs`. -/
inductive TypeDecl
  | mk
deriving DecidableEq, Repr

/-- Models the unit placeholder `struct VarDecl;` of `src/ast/mod.rs`. -/
inductive VarDecl
  | mk
deriving DecidableEq, Repr

/-- Models the unit placeholder `struct MethodDecl;` of `src/ast/mod.rs`. -/
inductive MethodDecl
  | mk
deriving DecidableEq, Repr

/-- Models the unit placeholder `struct Statement;` of `src/ast/mod.rs`. -/
inductive Statement
  | mk
deriving DecidableEq, Repr

/-- Models `DeclStatement` of `src/ast/mod.rs`. -/
inductive DeclStatement
  | Const (d : ConstDecl)
  | TypeDecl (d : TypeDecl)
  | VarDecl (d : VarDecl)
deriving DecidableEq, Repr

/-- Models `MaybeQualifiedIdent` of `src/ast/mod.rs`. -/
structure MaybeQualifiedIdent where
  package : Option Src
  name : Src
deriving DecidableEq, Repr

/-- Models the unit placeholder type-literal payload structs of
`src/ast/mod.rs` (`ArrayType`, `StructType`, `PointerType`, `FuncType`,
`InterfaceType`, `SliceType`, `MapType`, `ChanType`), one constructor
each. -/
inductive ArrayType | mk deriving DecidableEq, Repr

/-- Models the unit placeholder `struct StructType;` of `src/ast/mod.rs`. -/
inductive StructType | mk deriving DecidableEq, Repr

/-- Models the unit placeholder `struct PointerType;` of `src/ast/mod.rs`. -/
inductive PointerType | mk deriving DecidableEq, Repr

/-- Models the unit placeholder `struct FuncType;` of `src/ast/mod.rs`. -/
inductive FuncType | mk deriving DecidableEq, Repr

/-- Models the unit placeholder `struct InterfaceType;` of `src/ast/mod.rs`. -/
inductive InterfaceType | mk deriving DecidableEq, Repr

/-- Models the unit placeholder `struct SliceType;` of `src/ast/mod.rs`. -/
inductive SliceType | mk deriving DecidableEq, Repr

/-- Models the unit placeholder `struct MapType;` of `src/ast/mod.rs`. -/
inductive MapType | mk deriving DecidableEq, Repr

/-- Models the unit placeholder `struct ChanType;` of `src/ast/mod.rs`. -/
inductive ChanType | mk deriving DecidableEq, Repr

/-- Models `TypeLiteral` of `src/ast/mod.rs`. -/
inductive TypeLiteral
  | Array (t : ArrayType)
  | Struct (t : StructType)
  | Pointer (t : PointerType)
  | Function (t : FuncType)
  | Interface (t : InterfaceType)
  | Slice (t : SliceType)
  | Map (t : MapType)
  | Chan (t : ChanType)
deriving DecidableEq, Repr

/-- Models `enum Type` of `src/ast/mod.rs`; named `GoType` because `Type`
is reserved in Lean. -/
inductive GoType
  | Plain (i : MaybeQualifiedIdent)
  | Literal (t : TypeLiteral)
deriving DecidableEq, Repr

/-- Models `ParameterDecl` of `src/ast/mod.rs`. -/
structure ParameterDecl where
  identifiers : List Src
  typ : GoType
deriving DecidableEq, Repr

/-- Models `Parameters` of `src/ast/mod.rs`. -/
structure Parameters where
  decls : List ParameterDecl
deriving DecidableEq, Repr

/-- Models `FuncSignature` of `src/ast/mod.rs`. -/
structure FuncSignature where
  parameters : Parameters
  result : Parameters
deriving DecidableEq, Repr

/-- Models `FuncDecl` of `src/ast/mod.rs`. -/
structure FuncDecl where
  name : Src
  signature : FuncSignature
  body : List Statement
deriving DecidableEq, Repr

/-- Models `TopLevelDecl` of `src/ast/mod.rs`. -/
inductive TopLevelDecl
  | Statement (s : DeclStatement)
  | Func (f : FuncDecl)
  | Method (m : MethodDecl)
deriving DecidableEq, Repr

/-- Models `SourceFile` of `src/ast/mod.rs`: package name, import
declarations, top-level declarations. -/
structure SourceFile where
  package : Src
  import_decls : List ImportDecl
  top_level_decls : List TopLevelDecl
deriving DecidableEq, Repr

/-! Parser entry point. The module `src/parser` referenced by `src/lib.rs`
is not among the provided sources, so the parser is modelled from the
specification (sections 4.3, 6 and 7). -/

/-- Modelled from the spec: a `ParseError` names the expected construct and
the token actually found (`src/parser` is absent from the provided
sources). Spec section 7: "unexpected token where a specific construct was
expected — carrying expected-construct description, actual token, and
position"; tokens of this code base expose no position, so none is
available to record. -/
structure ParseError where
  expected : Src
  found : Option Token
deriving DecidableEq, Repr

/-- Whitespace test used by the parser's token filtering. -/
def isWhitespaceTok : Token → Bool
  | Token.Whitespace => true
  | _ => false

/-- Modelled from the spec: one import spec, `[ "." | PackageName ]
ImportPath` — an optional dot (glob) or identifier (alias) prefix followed
by a string-literal path (spec section 3, `ImportDecl / ImportSpec /
ImportKind`; `src/parser` is absent). Returns the spec and the remaining
tokens. -/
def parseImportSpec : List Token → Except ParseError (ImportSpec × List Token)
  | Token.Literal (Literal.Str p) :: rest =>
    .ok ({ kind := ImportKind.Normal, path := p }, rest)
  | Token.Dot :: Token.Literal (Literal.Str p) :: rest =>
    .ok ({ kind := ImportKind.Glob, path := p }, rest)
  | Token.Ident a :: Token.Literal (Literal.Str p) :: rest =>
    .ok ({ kind := ImportKind.Alias a, path := p }, rest)
  | ts => .error { expected := "import spec".toList, found := ts.head? }

/-- Modelled from the spec: the specs of a parenthesized import group,
parsed until the closing delimiter (spec section 4.3: "grouped forms parse
an inner sequence ... until the matching close delimiter"; `src/parser` is
absent). Fuel-indexed on the number of remaining tokens. -/
def parseImportGroup :
    Nat → List Token → Except ParseError (List ImportSpec × List Token)
  | 0, ts => .error { expected := "import spec or )".toList, found := ts.head? }
  | _, Token.CloseDelim DelimToken.Paren :: rest => .ok ([], rest)
  | f + 1, ts =>
    match parseImportSpec ts with
    | .error e => .error e
    | .ok (spec, rest) =>
      match parseImportGroup f rest with
      | .error e => .error e
      | .ok (specs, rest') => .ok (spec :: specs, rest')

/-- Modelled from the spec: zero or more import declarations, each either a
single `ImportSpec` or a parenthesized group (spec section 4.3 top-level
control; `src/parser` is absent). Fuel-indexed on the number of remaining
tokens. -/
def parseImportDecls :
    Nat → List Token → Except ParseError (List ImportDecl × List Token)
  | 0, ts => .ok ([], ts)
  | f + 1, Token.Keyword Keyword.Import :: rest =>
    match rest with
    | Token.OpenDelim DelimToken.Paren :: rest1 =>
      match parseImportGroup rest1.length rest1 with
      | .error e => .error e
      | .ok (specs, rest2) =>
        match parseImportDecls f rest2 with
        | .error e => .error e
        | .ok (decls, rest3) => .ok ({ specs := specs } :: decls, rest3)
    | _ =>
      match parseImportSpec rest with
      | .error e => .error e
      | .ok (spec, rest2) =>
        match parseImportDecls f rest2 with
        | .error e => .error e
        | .ok (decls, rest3) => .ok ({ specs := [spec] } :: decls, rest3)
  | _, ts => .ok ([], ts)

/-- Modelled from the spec: `parse_tokens` of the absent `src/parser`
module. Top-level control per spec section 4.3: filter whitespace tokens
(section 4.1: "the parser is responsible for filtering or skipping
whitespace tokens"), parse the mandatory package clause, then zero or
more import declarations, then top-level declarations until end of
input.
Top-level declarations other than the end of input are outside the
modelled fragment and fail fast (spec section 7). -/
def parse_tokens (toks : List Token) : Except ParseError SourceFile :=
  let ts := toks.filter (fun t => !(isWhitespaceTok t))
  match ts with
  | Token.Keyword Keyword.Package :: Token.Ident name :: rest =>
    match parseImportDecls rest.length rest with
    | .error e => .error e
    | .ok (decls, rest1) =>
      match rest1 with
      | [] => .ok { package := name, import_decls := decls, top_level_decls := [] }
      | ts1 => .error { expected := "top-level declaration".toList, found := ts1.head? }
  | Token.Keyword Keyword.Package :: rest =>
    .error { expected := "package name".toList, found := rest.head? }
  | ts => .error { expected := "package clause".toList, found := ts.head? }

/-- Error type of the full pipeline: a lexer panic or a parse error. -/
inductive FrontError
  | lex (e : LexAbort)
  | parse (e : ParseError)
deriving DecidableEq, Repr

/-- Models `parse` of `src/lib.rs`: collect the tokens of a fresh lexer and
hand them to `parse_tokens` (the parser itself is modelled from the spec,
see `parse_tokens`). -/
def parse (s : Src) : Except FrontError SourceFile :=
  match tokenize s with
  | .error e => .error (FrontError.lex e)
  | .ok toks =>
    match parse_tokens toks with
    | .error e => .error (FrontError.parse e)
    | .ok sf => .ok sf

/-- Lexer state translated past a prefix `A`: the relocation underlying the
statelessness of the lexer. Running at byte offset `byteLen A + p` inside
`A ++ s` corresponds to running at offset `p` inside `s`. -/
def shiftL (A : Src) (l : Lexer) : Lexer :=
  { pos := byteLen A + l.pos, src := A ++ l.src, current_char := l.current_char }

/-! Byte-arithmetic lemmas. -/

theorem byteLen_append (A B : Src) : byteLen (A ++ B) = byteLen A + byteLen B := by
  induction A with
  | nil => simp [byteLen]
  | cons c t ih => simp [byteLen, ih]; omega

theorem byteLen_pos {A : Src} (h : A ≠ []) : 1 ≤ byteLen A := by
  cases A with
  | nil => exact absurd rfl h
  | cons c t => have := c.utf8Size_pos; simp [byteLen]; omega

theorem char_at_zero (s : Src) : char_at s 0 = s.head? := by
  cases s <;> simp [char_at]

theorem char_at_append (A B : Src) (p : Nat) :
    char_at (A ++ B) (byteLen A + p) = char_at B p := by
  induction A with
  | nil => simp [byteLen]
  | cons c t ih =>
    have hc := c.utf8Size_pos
    have h0 : c.utf8Size + byteLen t + p ≠ 0 := by omega
    have h1 : ¬ (c.utf8Size + byteLen t + p < c.utf8Size) := by omega
    have h2 : c.utf8Size + byteLen t + p - c.utf8Size = byteLen t + p := by omega
    simp only [List.cons_append, byteLen, char_at, h0, if_false, h1, h2]
    exact ih

theorem dropBytes_append (A B : Src) (a : Nat) :
    dropBytes (A ++ B) (byteLen A + a) = dropBytes B a := by
  induction A with
  | nil => simp [byteLen]
  | cons c t ih =>
    have hc := c.utf8Size_pos
    have h0 : c.utf8Size + byteLen t + a ≠ 0 := by omega
    have h2 : c.utf8Size + byteLen t + a - c.utf8Size = byteLen t + a := by omega
    simp only [List.cons_append, byteLen, dropBytes, h0, if_false, h2]
    exact ih

theorem byteSlice_append (A B : Src) (a b : Nat) :
    byteSlice (A ++ B) (byteLen A + a) (byteLen A + b) = byteSlice B a b := by
  unfold byteSlice
  rw [dropBytes_append, Nat.add_sub_add_left]

/-! Lemmas on the fuel bound `nu` and on `bump`. -/

theorem nu_pos_of_some {l : Lexer} {c : Char} (h : l.current_char = some c) :
    1 ≤ nu l := by
  simp [nu, h]

theorem current_none_of_nu_zero {l : Lexer} (h : nu l = 0) :
    l.current_char = none := by
  cases hc : l.current_char with
  | none => rfl
  | some c => simp [nu, hc] at h

theorem nu_shiftL (A : Src) (l : Lexer) : nu (shiftL A l) = nu l := by
  simp only [nu, shiftL, byteLen_append]
  have : byteLen A + byteLen l.src + 2 - (byteLen A + l.pos)
      = byteLen l.src + 2 - l.pos := by omega
  rw [this]

theorem bump_pos_src {l l' : Lexer} (h : bump l = .ok l') :
    l'.pos = l.pos + 1 ∧ l'.src = l.src
      ∧ (l'.current_char.isSome → l.pos + 1 < byteLen l.src) := by
  unfold bump at h
  by_cases hlt : l.pos + 1 < byteLen l.src
  · simp only [hlt, if_true] at h
    cases hca : char_at l.src (l.pos + 1) with
    | none => rw [hca] at h; exact absurd h (by simp)
    | some ch =>
      rw [hca] at h
      cases h
      exact ⟨rfl, rfl, fun _ => hlt⟩
  · simp only [hlt, if_false] at h
    cases h
    exact ⟨rfl, rfl, by simp⟩

theorem bump_nu_le {l l' : Lexer} (h : bump l = .ok l') : nu l' ≤ nu l := by
  obtain ⟨hp, hs, hi⟩ := bump_pos_src h
  simp only [nu, hp, hs]
  cases hc' : l'.current_char.isSome with
  | true => have := hi (by simp [hc']); simp; omega
  | false =>
    cases hc : l.current_char.isSome <;> simp <;> omega

theorem bump_nu_lt {l l' : Lexer} (h : bump l = .ok l')
    (hs : l.current_char.isSome) : nu l' < nu l := by
  obtain ⟨hp, hsr, hi⟩ := bump_pos_src h
  simp only [nu, hp, hsr, hs]
  cases hc' : l'.current_char.isSome with
  | true => have := hi (by simp [hc']); simp; omega
  | false => simp; omega

theorem bump_shiftL (A : Src) (l : Lexer) :
    bump (shiftL A l) = Except.map (shiftL A) (bump l) := by
  unfold bump
  simp only [shiftL, byteLen_append]
  have hiff : byteLen A + l.pos + 1 < byteLen A + byteLen l.src
      ↔ l.pos + 1 < byteLen l.src := by omega
  by_cases hlt : l.pos + 1 < byteLen l.src
  · simp only [hiff.mpr hlt, if_true, hlt, if_true]
    have := char_at_append A l.src (l.pos + 1)
    rw [show byteLen A + l.pos + 1 = byteLen A + (l.pos + 1) from rfl, this]
    cases char_at l.src (l.pos + 1) <;> simp [Except.map, shiftL]
  · have : ¬ (byteLen A + l.pos + 1 < byteLen A + byteLen l.src) := fun h => hlt (hiff.mp h)
    simp only [this, if_false, hlt, if_false]
    simp [Except.map, shiftL]
    omega

/-! Lemmas on the scanning loop `scanWhile`. -/

theorem scanWhile_inv (p : Char → Bool) :
    ∀ (f : Nat) (l l' : Lexer), scanWhile p f l = .ok l' →
      l'.src = l.src ∧ l.pos ≤ l'.pos ∧ nu l' ≤ nu l := by
  intro f
  induction f with
  | zero =>
    intro l l' h
    simp only [scanWhile] at h
    cases h
    exact ⟨rfl, le_refl _, le_refl _⟩
  | succ f ih =>
    intro l l' h
    simp only [scanWhile] at h
    cases hc : l.current_char with
    | none => rw [hc] at h; cases h; exact ⟨rfl, le_refl _, le_refl _⟩
    | some c =>
      rw [hc] at h
      by_cases hp : p c
      · simp only [hp, if_true] at h
        cases hb : bump l with
        | error e => rw [hb] at h; exact absurd h (by simp)
        | ok l1 =>
          rw [hb] at h
          obtain ⟨h1, h2, h3⟩ := ih l1 l' h
          obtain ⟨hbp, hbs, _⟩ := bump_pos_src hb
          have hnu := bump_nu_lt hb (by simp [hc])
          exact ⟨h1.trans hbs, by omega, by omega⟩
      · simp only [hp, if_false] at h
        cases h
        exact ⟨rfl, le_refl _, le_refl _⟩

theorem scanWhile_stable (p : Char → Bool) :
    ∀ (f g : Nat) (l : Lexer), nu l ≤ f → nu l ≤ g →
      scanWhile p f l = scanWhile p g l := by
  intro f
  induction f with
  | zero =>
    intro g l hf _
    have hc := current_none_of_nu_zero (Nat.le_zero.mp hf)
    cases g with
    | zero => rfl
    | succ g => simp [scanWhile, hc]
  | succ f ih =>
    intro g l hf hg
    cases g with
    | zero =>
      have hc := current_none_of_nu_zero (Nat.le_zero.mp hg)
      simp [scanWhile, hc]
    | succ g =>
      simp only [scanWhile]
      cases hc : l.current_char with
      | none => rfl
      | some c =>
        by_cases hp : p c
        · simp only [hp, if_true]
          cases hb : bump l with
          | error e => rfl
          | ok l1 =>
            have hnu := bump_nu_lt hb (by simp [hc])
            exact ih g l1 (by omega) (by omega)
        · simp [hp]

theorem scanWhile_shiftL (p : Char → Bool) (A : Src) :
    ∀ (f : Nat) (l : Lexer),
      scanWhile p f (shiftL A l) = Except.map (shiftL A) (scanWhile p f l) := by
  intro f
  induction f with
  | zero => intro l; simp [scanWhile, Except.map]
  | succ f ih =>
    intro l
    simp only [scanWhile]
    have hcur : (shiftL A l).current_char = l.current_char := rfl
    rw [hcur]
    cases hc : l.current_char with
    | none => simp [Except.map]
    | some c =>
      by_cases hp : p c
      · simp only [hp, if_true, bump_shiftL]
        cases hb : bump l with
        | error e => simp [Except.map]
        | ok l1 => simp only [Except.map]; exact ih l1
      · simp [hp, Except.map]

theorem scanWhile_progress (p : Char → Bool) {l l' : Lexer} {c : Char}
    (hc : l.current_char = some c) (hp : p c = true)
    (h : scanWhile p (nu l) l = .ok l') :
    nu l' < nu l ∧ l.pos < l'.pos ∧ l'.src = l.src := by
  have h1 : 1 ≤ nu l := nu_pos_of_some hc
  obtain ⟨k, hk⟩ : ∃ k, nu l = k + 1 := ⟨nu l - 1, by omega⟩
  rw [hk] at h
  simp only [scanWhile, hc, hp, if_true] at h
  cases hb : bump l with
  | error e => rw [hb] at h; exact absurd h (by simp)
  | ok l1 =>
    rw [hb] at h
    obtain ⟨hs, hpos, hnu⟩ := scanWhile_inv p k l1 l' h
    obtain ⟨hbp, hbs, _⟩ := bump_pos_src hb
    have hlt := bump_nu_lt hb (by simp [hc])
    exact ⟨by omega, by omega, hs.trans hbs⟩

/-! Lemmas on the step functions of `nextTok`. -/

theorem can_continue_of_can_start {c : Char} (h : can_start_identifier c = true) :
    can_continue_identifier c = true := by
  unfold can_start_identifier at h
  simp [can_continue_identifier, h]

theorem shiftL_current (A : Src) (l : Lexer) :
    (shiftL A l).current_char = l.current_char := rfl

theorem emitAfterBump_ok {t : Token} {l l' : Lexer} {o : Option Token}
    (h : emitAfterBump t l = .ok (o, l')) :
    o = some t ∧ l.pos < l'.pos ∧ l'.src = l.src ∧ nu l' ≤ nu l
      ∧ (l.current_char.isSome = true → nu l' < nu l) := by
  unfold emitAfterBump at h
  cases hb : bump l with
  | error e => rw [hb] at h; simp at h
  | ok l1 =>
    rw [hb] at h
    cases h
    obtain ⟨hp, hs, _⟩ := bump_pos_src hb
    exact ⟨rfl, by omega, hs, bump_nu_le hb, fun hsome => bump_nu_lt hb hsome⟩

theorem emitOp_ok {d : Char} {dbl eqt short : Token} {l l' : Lexer} {o : Option Token}
    (h : emitOp d dbl eqt short l = .ok (o, l')) :
    o.isSome = true ∧ l.pos < l'.pos ∧ l'.src = l.src
      ∧ (l.current_char.isSome = true → nu l' < nu l) := by
  unfold emitOp at h
  cases hb : bump l with
  | error e => rw [hb] at h; simp at h
  | ok l1 =>
    rw [hb] at h
    dsimp only at h
    obtain ⟨hp, hs, _⟩ := bump_pos_src hb
    have hble := bump_nu_le hb
    split_ifs at h with h1 h2
    · obtain ⟨ho, hp2, hs2, hle2, _⟩ := emitAfterBump_ok h
      refine ⟨by simp [ho], by omega, hs2.trans hs, fun hsome => ?_⟩
      have := bump_nu_lt hb hsome
      omega
    · obtain ⟨ho, hp2, hs2, hle2, _⟩ := emitAfterBump_ok h
      refine ⟨by simp [ho], by omega, hs2.trans hs, fun hsome => ?_⟩
      have := bump_nu_lt hb hsome
      omega
    · cases h
      exact ⟨rfl, by omega, hs, fun hsome => bump_nu_lt hb hsome⟩

theorem scanIdent_ok {l l' : Lexer} {o : Option Token} {c : Char}
    (hc : l.current_char = some c) (hcs : can_continue_identifier c = true)
    (h : scanIdent l = .ok (o, l')) :
    o.isSome = true ∧ l.pos < l'.pos ∧ l'.src = l.src ∧ nu l' < nu l := by
  unfold scanIdent at h
  cases hw : scanWhile can_continue_identifier (nu l) l with
  | error e => rw [hw] at h; simp at h
  | ok l1 =>
    rw [hw] at h
    cases h
    obtain ⟨hnu, hpos, hsrc⟩ := scanWhile_progress _ hc hcs hw
    exact ⟨rfl, hpos, hsrc, hnu⟩

theorem scanWhitespace_ok {l l' : Lexer} {o : Option Token} {c : Char}
    (hc : l.current_char = some c) (hw : rust_is_whitespace c = true)
    (h : scanWhitespace l = .ok (o, l')) :
    o.isSome = true ∧ l.pos < l'.pos ∧ l'.src = l.src ∧ nu l' < nu l := by
  unfold scanWhitespace at h
  cases hsw : scanWhile rust_is_whitespace (nu l) l with
  | error e => rw [hsw] at h; simp at h
  | ok l1 =>
    rw [hsw] at h
    cases h
    obtain ⟨hnu, hpos, hsrc⟩ := scanWhile_progress _ hc hw hsw
    exact ⟨rfl, hpos, hsrc, hnu⟩

theorem scanStr_ok {l l' : Lexer} {o : Option Token}
    (hsome : l.current_char.isSome = true)
    (h : scanStr l = .ok (o, l')) :
    o.isSome = true ∧ l.pos < l'.pos ∧ l'.src = l.src ∧ nu l' < nu l := by
  unfold scanStr at h
  cases hb : bump l with
  | error e => rw [hb] at h; simp at h
  | ok l1 =>
    rw [hb] at h
    dsimp only at h
    cases hsw : scanWhile (fun ch => ch ≠ '"') (nu l1) l1 with
    | error e => rw [hsw] at h; simp at h
    | ok l2 =>
      rw [hsw] at h
      dsimp only at h
      cases hb2 : bump l2 with
      | error e => rw [hb2] at h; simp at h
      | ok l3 =>
        rw [hb2] at h
        cases h
        obtain ⟨hp1, hs1, _⟩ := bump_pos_src hb
        obtain ⟨hs2, hp2, hn2⟩ := scanWhile_inv _ _ _ _ hsw
        obtain ⟨hp3, hs3, _⟩ := bump_pos_src hb2
        have hn1 := bump_nu_lt hb hsome
        have hn3 := bump_nu_le hb2
        refine ⟨rfl, by omega, ?_, by omega⟩
        rw [hs3, hs2, hs1]

theorem emitAfterBump_shiftL (t : Token) (A : Src) (l : Lexer) :
    emitAfterBump t (shiftL A l)
      = Except.map (Prod.map id (shiftL A)) (emitAfterBump t l) := by
  unfold emitAfterBump
  rw [bump_shiftL]
  cases bump l <;> simp [Except.map, Prod.map]

theorem emitOp_shiftL (d : Char) (dbl eqt short : Token) (A : Src) (l : Lexer) :
    emitOp d dbl eqt short (shiftL A l)
      = Except.map (Prod.map id (shiftL A)) (emitOp d dbl eqt short l) := by
  unfold emitOp
  rw [bump_shiftL]
  cases bump l with
  | error e => simp [Except.map]
  | ok l1 =>
    simp only [Except.map]
    rw [shiftL_current]
    split_ifs
    · exact emitAfterBump_shiftL dbl A l1
    · exact emitAfterBump_shiftL eqt A l1
    · simp [Except.map, Prod.map]

theorem scanIdent_shiftL (A : Src) (l : Lexer) :
    scanIdent (shiftL A l) = Except.map (Prod.map id (shiftL A)) (scanIdent l) := by
  unfold scanIdent
  rw [nu_shiftL, scanWhile_shiftL]
  cases scanWhile can_continue_identifier (nu l) l with
  | error e => simp [Except.map]
  | ok l1 => simp [Except.map, Prod.map, shiftL, byteSlice_append]

theorem scanWhitespace_shiftL (A : Src) (l : Lexer) :
    scanWhitespace (shiftL A l)
      = Except.map (Prod.map id (shiftL A)) (scanWhitespace l) := by
  unfold scanWhitespace
  rw [nu_shiftL, scanWhile_shiftL]
  cases scanWhile rust_is_whitespace (nu l) l with
  | error e => simp [Except.map]
  | ok l1 => simp [Except.map, Prod.map]

theorem scanStr_shiftL (A : Src) (l : Lexer) :
    scanStr (shiftL A l) = Except.map (Prod.map id (shiftL A)) (scanStr l) := by
  unfold scanStr
  rw [bump_shiftL]
  cases bump l with
  | error e => simp [Except.map]
  | ok l1 =>
    simp only [Except.map]
    rw [nu_shiftL, scanWhile_shiftL]
    cases scanWhile (fun ch => ch ≠ '"') (nu l1) l1 with
    | error e => simp [Except.map]
    | ok l2 =>
      simp only [Except.map]
      rw [bump_shiftL]
      cases bump l2 with
      | error e => simp [Except.map]
      | ok l3 => simp [Except.map, Prod.map, shiftL, byteSlice_append]

/-! Master lemmas on `nextTok`. -/

theorem nextTok_of_none {l : Lexer} (h : l.current_char = none) :
    nextTok l = .ok (none, l) := by
  simp [nextTok, h]

theorem nextTok_ok_none {l l' : Lexer} (h : nextTok l = .ok (none, l')) :
    l.current_char = none ∧ l' = l := by
  unfold nextTok at h
  cases hc : l.current_char with
  | none => rw [hc] at h; cases h; exact ⟨rfl, rfl⟩
  | some c =>
    rw [hc] at h
    dsimp only at h
    exfalso
    have hsome : l.current_char.isSome = true := by simp [hc]
    rcases eq_or_ne c '(' with h1 | h1
    · simp only [if_pos h1] at h
      exact absurd (emitAfterBump_ok h).1 (by simp)
    simp only [if_neg h1] at h
    rcases eq_or_ne c ')' with h2 | h2
    · simp only [if_pos h2] at h
      exact absurd (emitAfterBump_ok h).1 (by simp)
    simp only [if_neg h2] at h
    rcases eq_or_ne c '\x7b' with h3 | h3
    · simp only [if_pos h3] at h
      exact absurd (emitAfterBump_ok h).1 (by simp)
    simp only [if_neg h3] at h
    rcases eq_or_ne c '\x7d' with h4 | h4
    · simp only [if_pos h4] at h
      exact absurd (emitAfterBump_ok h).1 (by simp)
    simp only [if_neg h4] at h
    rcases eq_or_ne c '[' with h5 | h5
    · simp only [if_pos h5] at h
      exact absurd (emitAfterBump_ok h).1 (by simp)
    simp only [if_neg h5] at h
    rcases eq_or_ne c ']' with h6 | h6
    · simp only [if_pos h6] at h
      exact absurd (emitAfterBump_ok h).1 (by simp)
    simp only [if_neg h6] at h
    rcases eq_or_ne c ',' with h7 | h7
    · simp only [if_pos h7] at h
      exact absurd (emitAfterBump_ok h).1 (by simp)
    simp only [if_neg h7] at h
    rcases eq_or_ne c '.' with h8 | h8
    · simp only [if_pos h8] at h
      exact absurd (emitAfterBump_ok h).1 (by simp)
    simp only [if_neg h8] at h
    rcases eq_or_ne c '+' with h9 | h9
    · simp only [if_pos h9] at h
      exact absurd (emitOp_ok h).1 (by simp)
    simp only [if_neg h9] at h
    rcases eq_or_ne c '-' with h10 | h10
    · simp only [if_pos h10] at h
      exact absurd (emitOp_ok h).1 (by simp)
    simp only [if_neg h10] at h
    rcases eq_or_ne c '|' with h11 | h11
    · simp only [if_pos h11] at h
      exact absurd (emitOp_ok h).1 (by simp)
    simp only [if_neg h11] at h
    by_cases h12 : can_start_identifier c = true
    · simp only [if_pos h12] at h
      exact absurd (scanIdent_ok hc (can_continue_of_can_start h12) h).1 (by simp)
    simp only [if_neg h12] at h
    by_cases h13 : rust_is_whitespace c = true
    · simp only [if_pos h13] at h
      exact absurd (scanWhitespace_ok hc h13 h).1 (by simp)
    simp only [if_neg h13] at h
    rcases eq_or_ne c '"' with h14 | h14
    · simp only [if_pos h14] at h
      exact absurd (scanStr_ok hsome h).1 (by simp)
    simp only [if_neg h14] at h
    simp at h

theorem nextTok_progress {l l' : Lexer} {t : Token}
    (h : nextTok l = .ok (some t, l')) :
    nu l' < nu l ∧ l.pos < l'.pos ∧ l'.src = l.src := by
  unfold nextTok at h
  cases hc : l.current_char with
  | none => rw [hc] at h; simp at h
  | some c =>
    rw [hc] at h
    dsimp only at h
    have hsome : l.current_char.isSome = true := by simp [hc]
    rcases eq_or_ne c '(' with h1 | h1
    · simp only [if_pos h1] at h
      obtain ⟨_, hp, hs, _, hlt⟩ := emitAfterBump_ok h
      exact ⟨hlt hsome, hp, hs⟩
    simp only [if_neg h1] at h
    rcases eq_or_ne c ')' with h2 | h2
    · simp only [if_pos h2] at h
      obtain ⟨_, hp, hs, _, hlt⟩ := emitAfterBump_ok h
      exact ⟨hlt hsome, hp, hs⟩
    simp only [if_neg h2] at h
    rcases eq_or_ne c '\x7b' with h3 | h3
    · simp only [if_pos h3] at h
      obtain ⟨_, hp, hs, _, hlt⟩ := emitAfterBump_ok h
      exact ⟨hlt hsome, hp, hs⟩
    simp only [if_neg h3] at h
    rcases eq_or_ne c '\x7d' with h4 | h4
    · simp only [if_pos h4] at h
      obtain ⟨_, hp, hs, _, hlt⟩ := emitAfterBump_ok h
      exact ⟨hlt hsome, hp, hs⟩
    simp only [if_neg h4] at h
    rcases eq_or_ne c '[' with h5 | h5
    · simp only [if_pos h5] at h
      obtain ⟨_, hp, hs, _, hlt⟩ := emitAfterBump_ok h
      exact ⟨hlt hsome, hp, hs⟩
    simp only [if_neg h5] at h
    rcases eq_or_ne c ']' with h6 | h6
    · simp only [if_pos h6] at h
      obtain ⟨_, hp, hs, _, hlt⟩ := emitAfterBump_ok h
      exact ⟨hlt hsome, hp, hs⟩
    simp only [if_neg h6] at h
    rcases eq_or_ne c ',' with h7 | h7
    · simp only [if_pos h7] at h
      obtain ⟨_, hp, hs, _, hlt⟩ := emitAfterBump_ok h
      exact ⟨hlt hsome, hp, hs⟩
    simp only [if_neg h7] at h
    rcases eq_or_ne c '.' with h8 | h8
    · simp only [if_pos h8] at h
      obtain ⟨_, hp, hs, _, hlt⟩ := emitAfterBump_ok h
      exact ⟨hlt hsome, hp, hs⟩
    simp only [if_neg h8] at h
    rcases eq_or_ne c '+' with h9 | h9
    · simp only [if_pos h9] at h
      obtain ⟨_, hp, hs, hlt⟩ := emitOp_ok h
      exact ⟨hlt hsome, hp, hs⟩
    simp only [if_neg h9] at h
    rcases eq_or_ne c '-' with h10 | h10
    · simp only [if_pos h10] at h
      obtain ⟨_, hp, hs, hlt⟩ := emitOp_ok h
      exact ⟨hlt hsome, hp, hs⟩
    simp only [if_neg h10] at h
    rcases eq_or_ne c '|' with h11 | h11
    · simp only [if_pos h11] at h
      obtain ⟨_, hp, hs, hlt⟩ := emitOp_ok h
      exact ⟨hlt hsome, hp, hs⟩
    simp only [if_neg h11] at h
    by_cases h12 : can_start_identifier c = true
    · simp only [if_pos h12] at h
      obtain ⟨_, hp, hs, hlt⟩ := scanIdent_ok hc (can_continue_of_can_start h12) h
      exact ⟨hlt, hp, hs⟩
    simp only [if_neg h12] at h
    by_cases h13 : rust_is_whitespace c = true
    · simp only [if_pos h13] at h
      obtain ⟨_, hp, hs, hlt⟩ := scanWhitespace_ok hc h13 h
      exact ⟨hlt, hp, hs⟩
    simp only [if_neg h13] at h
    rcases eq_or_ne c '"' with h14 | h14
    · simp only [if_pos h14] at h
      obtain ⟨_, hp, hs, hlt⟩ := scanStr_ok hsome h
      exact ⟨hlt, hp, hs⟩
    simp only [if_neg h14] at h
    simp at h

theorem nextTok_shiftL (A : Src) (l : Lexer) :
    nextTok (shiftL A l) = Except.map (Prod.map id (shiftL A)) (nextTok l) := by
  unfold nextTok
  rw [shiftL_current]
  cases hc : l.current_char with
  | none => simp [Except.map, Prod.map]
  | some c =>
    dsimp only
    rcases eq_or_ne c '(' with h1 | h1
    · simp only [if_pos h1]
      exact emitAfterBump_shiftL _ A l
    simp only [if_neg h1]
    rcases eq_or_ne c ')' with h2 | h2
    · simp only [if_pos h2]
      exact emitAfterBump_shiftL _ A l
    simp only [if_neg h2]
    rcases eq_or_ne c '\x7b' with h3 | h3
    · simp only [if_pos h3]
      exact emitAfterBump_shiftL _ A l
    simp only [if_neg h3]
    rcases eq_or_ne c '\x7d' with h4 | h4
    · simp only [if_pos h4]
      exact emitAfterBump_shiftL _ A l
    simp only [if_neg h4]
    rcases eq_or_ne c '[' with h5 | h5
    · simp only [if_pos h5]
      exact emitAfterBump_shiftL _ A l
    simp only [if_neg h5]
    rcases eq_or_ne c ']' with h6 | h6
    · simp only [if_pos h6]
      exact emitAfterBump_shiftL _ A l
    simp only [if_neg h6]
    rcases eq_or_ne c ',' with h7 | h7
    · simp only [if_pos h7]
      exact emitAfterBump_shiftL _ A l
    simp only [if_neg h7]
    rcases eq_or_ne c '.' with h8 | h8
    · simp only [if_pos h8]
      exact emitAfterBump_shiftL _ A l
    simp only [if_neg h8]
    rcases eq_or_ne c '+' with h9 | h9
    · simp only [if_pos h9]
      exact emitOp_shiftL '+' _ _ _ A l
    simp only [if_neg h9]
    rcases eq_or_ne c '-' with h10 | h10
    · simp only [if_pos h10]
      exact emitOp_shiftL '-' _ _ _ A l
    simp only [if_neg h10]
    rcases eq_or_ne c '|' with h11 | h11
    · simp only [if_pos h11]
      exact emitOp_shiftL '|' _ _ _ A l
    simp only [if_neg h11]
    by_cases h12 : can_start_identifier c = true
    · simp only [if_pos h12]
      exact scanIdent_shiftL A l
    simp only [if_neg h12]
    by_cases h13 : rust_is_whitespace c = true
    · simp only [if_pos h13]
      exact scanWhitespace_shiftL A l
    simp only [if_neg h13]
    rcases eq_or_ne c '"' with h14 | h14
    · simp only [if_pos h14]
      exact scanStr_shiftL A l
    simp only [if_neg h14]
    simp [Except.map]

/-! Lemmas on the token-collection loop. -/

theorem lexRunF_stable : ∀ (f g : Nat) (l : Lexer), nu l ≤ f → nu l ≤ g →
    lexRunF f l = lexRunF g l := by
  intro f
  induction f with
  | zero =>
    intro g l hf _
    have hc := current_none_of_nu_zero (Nat.le_zero.mp hf)
    cases g with
    | zero => rfl
    | succ g => simp [lexRunF, nextTok_of_none hc]
  | succ f ih =>
    intro g l hf hg
    cases g with
    | zero =>
      have hc := current_none_of_nu_zero (Nat.le_zero.mp hg)
      simp [lexRunF, nextTok_of_none hc]
    | succ g =>
      simp only [lexRunF]
      cases hn : nextTok l with
      | error e => rfl
      | ok r =>
        rcases r with ⟨o, l1⟩
        cases o with
        | none => rfl
        | some t =>
          have hp := (nextTok_progress hn).1
          dsimp only
          rw [ih g l1 (by omega) (by omega)]

theorem lexRunF_shiftL (A : Src) : ∀ (f : Nat) (l : Lexer),
    lexRunF f (shiftL A l) = lexRunF f l := by
  intro f
  induction f with
  | zero => intro l; rfl
  | succ f ih =>
    intro l
    simp only [lexRunF, nextTok_shiftL]
    cases hn : nextTok l with
    | error e => simp [Except.map]
    | ok r =>
      rcases r with ⟨o, l1⟩
      cases o with
      | none => simp [Except.map, Prod.map]
      | some t => simp [Except.map, Prod.map, ih l1]

theorem lexRunF_succ (f : Nat) (l : Lexer) :
    lexRunF (f + 1) l = match nextTok l with
      | .error e => .error e
      | .ok (none, _) => .ok []
      | .ok (some t, l') => match lexRunF f l' with
        | .error e => .error e
        | .ok ts => .ok (t :: ts) := rfl

theorem tokenize_nil : tokenize [] = .ok [] := rfl

theorem nu_new {s : Src} (h : s ≠ []) :
    nu (Lexer.new s) = 2 * (byteLen s + 2) + 1 := by
  cases s with
  | nil => exact absurd rfl h
  | cons c t => simp [nu, Lexer.new]

/-! Claim theorems. -/

/-- Claim C1 (code bug, evaluation at the failing input): on the input
`"@"`, whose first character starts no handled token, the lexer does not
produce a recoverable error value carrying the offending position — it
executes `panic!("unexpected start of token: '{}'", c)`, an unconditional
abort whose message carries only the character. -/
theorem tokenize_unexpected_char_aborts :
    tokenize ['@'] = .error (LexAbort.unexpectedChar '@') := rfl

/-- Claim C2 (code bug, evaluation at the failing input): on the
unterminated string literal input `"abc` (opening quote, never closed),
tokenization does not fail with a `LexError` at the opening quote — it
silently succeeds, emitting the text up to end of input as a string
literal token. -/
theorem tokenize_unterminated_string_succeeds :
    tokenize ['"', 'a', 'b', 'c'] = .ok [Token.Literal (Literal.Str ['a', 'b', 'c'])] := rfl

/-- Claim C3 (counterexample): no function can read a token's source byte
offset back off the token — tokenizing `((` yields the same token value
`OpenDelim(Paren)` at byte offsets 0 and 1, so no position triple is
externally exposed alongside the kind. -/
theorem token_position_not_exposed :
    tokenizeWithPos ['(', '('] =
      .ok [(0, Token.OpenDelim DelimToken.Paren), (1, Token.OpenDelim DelimToken.Paren)]
    ∧ ¬ ∃ off : Token → Nat, ∀ p t,
        (p, t) ∈ [((0 : Nat), Token.OpenDelim DelimToken.Paren),
                  (1, Token.OpenDelim DelimToken.Paren)] → off t = p := by
  refine ⟨rfl, ?_⟩
  rintro ⟨off, h⟩
  have e0 := h 0 (Token.OpenDelim DelimToken.Paren) (by simp)
  have e1 := h 1 (Token.OpenDelim DelimToken.Paren) (by simp)
  omega

/-- Claim C3 (amended): a token exposes its kind only; the lexer attaches
no position, so the tokens produced at the distinct byte offsets 0 and 1
of the input `((` are the identical value `OpenDelim(Paren)`. -/
theorem tokens_carry_kind_only :
    tokenizeWithPos ['(', '('] =
      .ok [(0, Token.OpenDelim DelimToken.Paren), (1, Token.OpenDelim DelimToken.Paren)] := rfl

/-- Claim C4: parsing the source `package main` succeeds and yields a
`SourceFile` with package name `main`, no import declarations and no
top-level declarations (parser modelled from the spec, `src/parser` being
absent from the provided sources). -/
theorem parse_package_main :
    parse "package main".toList
      = .ok { package := "main".toList, import_decls := [], top_level_decls := [] } := rfl

/-- Claim C5: if `A` and `B` each tokenize to exactly one token and the
boundary between them is not re-interpreted by maximal munch (made precise
by requiring the first lexer step on `A ++ B` to produce the token of `A`
and stop exactly at the byte boundary between `A` and `B`), then
tokenizing `A ++ B` yields the concatenation of the two single-token
tokenizations — the classification of a token never depends on previously
emitted tokens. -/
theorem tokenize_append_single_tokens (A B : Src) (a b : Token)
    (hA : tokenize A = .ok [a]) (hB : tokenize B = .ok [b])
    (hSC : nextTok (Lexer.new (A ++ B)) =
      .ok (some a, { pos := byteLen A, src := A ++ B,
                     current_char := char_at (A ++ B) (byteLen A) })) :
    tokenize (A ++ B) = .ok [a, b] := by
  have hAne : A ≠ [] := by
    intro hA0
    rw [hA0, tokenize_nil] at hA
    simp at hA
  have hBne : B ≠ [] := by
    intro hB0
    rw [hB0, tokenize_nil] at hB
    simp at hB
  have hABne : A ++ B ≠ [] := by simp [hAne]
  have hbA := byteLen_pos hAne
  have hstate : ({ pos := byteLen A, src := A ++ B,
                   current_char := char_at (A ++ B) (byteLen A) } : Lexer)
      = shiftL A (Lexer.new B) := by
    have h0 : char_at (A ++ B) (byteLen A) = char_at B 0 := by
      have := char_at_append A B 0
      simpa using this
    simp [shiftL, Lexer.new, h0, char_at_zero]
  unfold tokenize
  rw [nu_new hABne]
  rw [lexRunF_succ, hSC]
  dsimp only
  rw [hstate, lexRunF_shiftL]
  have hnuB : nu (Lexer.new B) ≤ 2 * (byteLen (A ++ B) + 2) := by
    rw [nu_new hBne, byteLen_append]
    omega
  rw [lexRunF_stable (2 * (byteLen (A ++ B) + 2)) (nu (Lexer.new B)) (Lexer.new B) hnuB
    (le_refl _)]
  rw [show lexRunF (nu (Lexer.new B)) (Lexer.new B) = tokenize B from rfl, hB]

/-- Claim C5 (witness): the side conditions are satisfiable — instantiating
`A` with the single token `(` and `B` with `)` discharges every hypothesis
by computation and reproduces the spec's composability example for `()`. -/
theorem tokenize_append_single_tokens_witness :
    tokenize ['(', ')'] = .ok [Token.OpenDelim DelimToken.Paren,
      Token.CloseDelim DelimToken.Paren] :=
  tokenize_append_single_tokens ['('] [')'] (Token.OpenDelim DelimToken.Paren)
    (Token.CloseDelim DelimToken.Paren) rfl rfl rfl

/-- Claim C6 (code bug, evaluation at the failing input): `é` is an
alphabetic character (so the claim's premise holds), yet the lexer does
not emit `Ident("é")` — because `bump` advances one byte per character,
scanning past the two-byte `é` lands inside it and `char_at` panics on a
non-character boundary. -/
theorem tokenize_multibyte_ident_aborts :
    can_start_identifier 'é' = true ∧ tokenize ['é'] = .error LexAbort.charBoundary :=
  ⟨by decide, rfl⟩

/-- Claim C7: multi-character operators obey maximal munch with default to
the short form: `++` is one `Increment`, `+=` one `PlusEquals`, a lone `+`
a `Plus`, and `||` one `PipePipe` — never two `Pipe` tokens. -/
theorem operator_maximal_munch :
    tokenize "++".toList = .ok [Token.Increment]
    ∧ tokenize "+=".toList = .ok [Token.PlusEquals]
    ∧ tokenize "+".toList = .ok [Token.Plus]
    ∧ tokenize "||".toList = .ok [Token.PipePipe]
    ∧ tokenize "||".toList ≠ .ok [Token.Pipe, Token.Pipe] := by
  refine ⟨rfl, rfl, rfl, rfl, fun h => ?_⟩
  rw [show tokenize "||".toList = .ok [Token.PipePipe] from rfl] at h
  simp at h

/-- Claim C8: `func` lexes to the keyword `Func`, while `funcx` — a
keyword followed by further identifier characters — lexes to the single
identifier `funcx`, not to a keyword plus a remainder. -/
theorem keyword_identifier_boundary :
    tokenize "func".toList = .ok [Token.Keyword Keyword.Func]
    ∧ tokenize "funcx".toList = .ok [Token.Ident "funcx".toList] :=
  ⟨rfl, rfl⟩

/-- Claim C9 (counterexample): the input `@` is not exhausted, yet `next`
returns no token on it — it aborts with the unexpected-character panic —
so it is false that `next` always returns one token whenever the input is
not exhausted. -/
theorem next_not_token_on_unexpected :
    (Lexer.new ['@']).current_char ≠ none
    ∧ nextTok (Lexer.new ['@']) = .error (LexAbort.unexpectedChar '@')
    ∧ ¬ ∃ t l', nextTok (Lexer.new ['@']) = .ok (some t, l') := by
  refine ⟨by simp [Lexer.new], rfl, ?_⟩
  rintro ⟨t, l', h⟩
  rw [show nextTok (Lexer.new ['@']) = .error (LexAbort.unexpectedChar '@') from rfl] at h
  simp at h

/-- Claim C9 (amended): the lexer terminates on every input. `next`
returns `None` (leaving the state unchanged) exactly when the current
character is exhausted — on a fresh lexer, exactly on the empty input —
and otherwise either aborts with one of the two lexical panics or returns
exactly one token after strictly advancing the position; the collection
loop of `tokenize` is bounded by the input length: any fuel at least the
linear bound `nu` computes `tokenize`. -/
theorem next_none_iff_exhausted_and_advances :
    (∀ l l', nextTok l = .ok (none, l') ↔ (l.current_char = none ∧ l' = l))
    ∧ (∀ (l : Lexer) (t : Token) (l' : Lexer), nextTok l = .ok (some t, l') → l.pos < l'.pos)
    ∧ (∀ s : Src, nextTok (Lexer.new s) = .ok (none, Lexer.new s) ↔ s = [])
    ∧ (∀ (s : Src) (f : Nat), nu (Lexer.new s) ≤ f → lexRunF f (Lexer.new s) = tokenize s) := by
  refine ⟨?_, ?_, ?_, ?_⟩
  · intro l l'
    constructor
    · exact nextTok_ok_none
    · rintro ⟨hc, rfl⟩
      exact nextTok_of_none hc
  · intro l t l' h
    exact (nextTok_progress h).2.1
  · intro s
    constructor
    · intro h
      have hc := (nextTok_ok_none h).1
      simpa [Lexer.new] using hc
    · intro h
      subst h
      rfl
  · intro s f hf
    exact lexRunF_stable f (nu (Lexer.new s)) (Lexer.new s) hf (le_refl _)

/-- Claim C9 (witness): instantiating the strict-advance conjunct on the
fresh lexer for `(`, whose first step is computed by `rfl`, yields a
strict position increase from 0 to 1. -/
theorem next_none_iff_exhausted_and_advances_witness :
    (Lexer.new ['(']).pos
      < ({ pos := 1, src := ['('], current_char := none } : Lexer).pos :=
  next_none_iff_exhausted_and_advances.2.1 (Lexer.new ['('])
    (Token.OpenDelim DelimToken.Paren) { pos := 1, src := ['('], current_char := none } rfl

/-- Claim C10: tokenizing the empty string yields the empty token
sequence, and an exhausted lexer is stable — whenever `next` returns
`None` the state is unchanged and every subsequent call returns `None`
again. -/
theorem tokenize_empty_and_exhausted_stable :
    tokenize [] = .ok []
    ∧ ∀ l l', nextTok l = .ok (none, l') → l' = l ∧ nextTok l' = .ok (none, l') := by
  refine ⟨rfl, ?_⟩
  intro l l' h
  obtain ⟨hc, rfl⟩ := nextTok_ok_none h
  exact ⟨rfl, nextTok_of_none hc⟩

/-- Claim C10 (witness): applied to the fresh lexer on the empty input,
whose first step returns `None` by computation, stability yields that the
next call returns `None` again. -/
theorem tokenize_empty_and_exhausted_stable_witness :
    nextTok (Lexer.new []) = .ok (none, Lexer.new []) :=
  (tokenize_empty_and_exhausted_stable.2 (Lexer.new []) (Lexer.new []) rfl).2

end Rgo
